import Mathlib

/-!
Shallow embedding of the libp2ep pay-to-endpoint core (src/common.rs,
src/jsonrpc.rs, src/lib.rs, src/server.rs, src/client.rs, src/blockchain.rs,
src/signer.rs).

Modelling conventions:
- Machine integers are Nat. u64 additions in the source are modelled as
  overflow-checked (Rust debug semantics): an addition reaching 2^64 is a
  panic. checked_sub is modelled exactly.
- Byte strings are List Nat; scripts and witness stack items are byte strings.
- Rust Result plus the possibility of a panic is modelled by the Ret type
  below: a computation either panics, returns an error value, or succeeds.
- The external crypto primitives (secp256k1, BIP-143 sighash, DER parsing)
  and the consensus witness codec of the bitcoin crate are external
  collaborators; they enter as explicit function parameters.
- Txid is modelled as Nat.
-/

namespace P2EP

structure OutPoint where
  txid : Nat
  vout : Nat
deriving DecidableEq, Repr

structure TxIn where
  previous_output : OutPoint
  script_sig : List Nat
  sequence : Nat
  witness : List (List Nat)
deriving DecidableEq, Repr

structure TxOut where
  value : Nat
  script_pubkey : List Nat
deriving DecidableEq, Repr

structure Transaction where
  version : Int
  lock_time : Nat
  input : List TxIn
  output : List TxOut
deriving DecidableEq, Repr

/-- Errors of proof-transaction validation, src/common.rs lines 20 to 28. -/
inductive ProofTransactionError where
  | InvalidVersion
  | InvalidLocktime
  | InvalidProofOutput
  | InvalidInputType (i : Nat)
  | InvalidInputSignature (i : Nat)
  | MissingUTXO (i : Nat)
  | InputIsSpent (i : Nat)
deriving DecidableEq, Repr

/-- Errors of final-transaction assembly, src/common.rs lines 170 to 177. -/
inductive FinalTransactionError where
  | NegativeSenderAmount
  | InvalidReceiverInputSequence
  | InvalidReceiverInputNonEmptySig
  | InvalidReceiverInputIndex
  | InvalidReceiverOutputIndex
  | InvalidWitness
deriving DecidableEq, Repr

/-- Protocol-level errors, src/lib.rs lines 202 to 210. -/
inductive ProtocolError where
  | UnexpectedMessage
  | Expected (s : String)
  | InvalidVersion (s : String)
  | InvalidProof (e : ProofTransactionError)
  | InvalidFinalTransaction (e : FinalTransactionError)
  | InvalidUtxo
  | MissingData
deriving DecidableEq, Repr

/-- The top-level error taxonomy, src/lib.rs lines 220 to 231. The transport
and external variants that carry foreign payloads are collapsed to plain
constructors, since the core never inspects them. -/
inductive Error where
  | Serde
  | IOErr
  | Protocol (e : ProtocolError)
  | PeerError (e : ProtocolError)
  | Timeout
  | EOF
  | Chain
  | Other
deriving DecidableEq, Repr

/-- Result of running a piece of Rust code: it can panic, return Err, or
return Ok. -/
inductive Ret (α : Type) where
  | panic : Ret α
  | error : Error → Ret α
  | ok : α → Ret α
deriving DecidableEq, Repr

/-- Shorthand for an Err carrying a FinalTransactionError, as produced by the
From chain FinalTransactionError to ProtocolError to Error in src/lib.rs. -/
def retFinalErr {α : Type} (e : FinalTransactionError) : Ret α :=
  Ret.error (Error.Protocol (ProtocolError.InvalidFinalTransaction e))

/-- Shorthand for an Err carrying a ProofTransactionError. -/
def errProof (e : ProofTransactionError) : Error :=
  Error.Protocol (ProtocolError.InvalidProof e)

/-- The Blockchain trait, src/blockchain.rs. A `none` result models a chain
error, which the core only propagates. -/
structure Blockchain where
  get_tx : Nat → Option Transaction
  is_unspent : OutPoint → Option Bool
  get_random_utxo : OutPoint → Nat → Option (List OutPoint)

def U64MOD : Nat := 18446744073709551616

/-- u64 addition under overflow checking: panics when the sum does not fit. -/
def addU64 (a b : Nat) : Ret Nat :=
  if a + b < U64MOD then Ret.ok (a + b) else Ret.panic

/-- u64 checked_sub. -/
def checkedSub (a b : Nat) : Option Nat :=
  if b ≤ a then some (a - b) else none

/-- The sender-input summation loop of src/common.rs lines 240 to 244:
for each input, get_tx propagates chain errors, the previous output is
indexed without a bounds check (panic when out of range), and the value is
accumulated into a u64. -/
def sumInputValues (chain : Blockchain) : List TxIn → Nat → Ret Nat
  | [], acc => Ret.ok acc
  | inp :: rest, acc =>
    match chain.get_tx inp.previous_output.txid with
    | none => Ret.error Error.Chain
    | some prev_tx =>
      match prev_tx.output[inp.previous_output.vout]? with
      | none => Ret.panic
      | some pout =>
        match addU64 acc pout.value with
        | Ret.ok acc2 => sumInputValues chain rest acc2
        | Ret.panic => Ret.panic
        | Ret.error e => Ret.error e

/-- FinalTransactionMeta, src/common.rs lines 180 to 188. The phantom-typed
ProofTransaction wrapper is erased: tx is its inner Transaction. -/
structure FinalTransactionMeta where
  tx : Transaction
  fees : Nat
  sender_script : List Nat
  receiver_txin : TxIn
  receiver_input_index : Nat
  receiver_txout : TxOut
  receiver_output_index : Nat
deriving DecidableEq, Repr

/-- FinalTransaction, src/common.rs lines 202 to 209, with the signing-stage
phantom erased. -/
structure FinalTransaction where
  transaction : Transaction
  receiver_input_index : Nat
deriving DecidableEq, Repr

/-- TryFrom (FinalTransactionMeta, Blockchain) for FinalTransaction Unsigned,
src/common.rs lines 225 to 281. The proof outputs are discarded, the sender
change output is pushed, the receiver output is inserted at
receiver_output_index (checked against the output count, which is 1 at that
point), the receiver input is checked and inserted at receiver_input_index.
Vec insert is List.insertIdx; both inserts happen under an index bound check
so they cannot themselves panic. The two unchecked vector indexes into
previous outputs are modelled as panics. -/
def finalTransactionUnsigned (meta : FinalTransactionMeta) (chain : Blockchain) :
    Ret FinalTransaction :=
  match sumInputValues chain meta.tx.input 0 with
  | Ret.panic => Ret.panic
  | Ret.error e => Ret.error e
  | Ret.ok siv =>
    match checkedSub siv meta.fees with
    | none => retFinalErr FinalTransactionError.NegativeSenderAmount
    | some v1 =>
      match checkedSub v1 meta.receiver_txout.value with
      | none => retFinalErr FinalTransactionError.NegativeSenderAmount
      | some change =>
        match chain.get_tx meta.receiver_txin.previous_output.txid with
        | none => Ret.error Error.Chain
        | some rtx =>
          match rtx.output[meta.receiver_txin.previous_output.vout]? with
          | none => Ret.panic
          | some rpout =>
            match addU64 meta.receiver_txout.value rpout.value with
            | Ret.panic => Ret.panic
            | Ret.error e => Ret.error e
            | Ret.ok rv =>
              if meta.receiver_output_index > 1 then
                retFinalErr FinalTransactionError.InvalidReceiverOutputIndex
              else if meta.receiver_txin.sequence ≠ 4294967295 then
                retFinalErr FinalTransactionError.InvalidReceiverInputSequence
              else if meta.receiver_txin.script_sig ≠ [] ∨ meta.receiver_txin.witness ≠ [] then
                retFinalErr FinalTransactionError.InvalidReceiverInputNonEmptySig
              else if meta.receiver_input_index > meta.tx.input.length then
                retFinalErr FinalTransactionError.InvalidReceiverInputIndex
              else
                Ret.ok
                  { transaction :=
                      { version := meta.tx.version
                        lock_time := meta.tx.lock_time
                        input :=
                          meta.tx.input.insertIdx meta.receiver_input_index meta.receiver_txin
                        output :=
                          List.insertIdx meta.receiver_output_index
                            { value := rv, script_pubkey := meta.receiver_txout.script_pubkey }
                            [{ value := change, script_pubkey := meta.sender_script }] }
                    receiver_input_index := meta.receiver_input_index }

/-- The previous-output value referenced by one input, when the lookup
succeeds. -/
def prevValue (chain : Blockchain) (inp : TxIn) : Option Nat :=
  match chain.get_tx inp.previous_output.txid with
  | none => none
  | some t => (t.output[inp.previous_output.vout]?).map TxOut.value

/-- Sum of the previous-output values of a list of inputs; none when any
lookup fails. -/
def prevValueSum (chain : Blockchain) : List TxIn → Option Nat
  | [] => some 0
  | inp :: rest =>
    match prevValue chain inp, prevValueSum chain rest with
    | some v, some s => some (v + s)
    | _, _ => none

/-- Sum of the output values of a transaction output list. -/
def outputValueSum (l : List TxOut) : Nat :=
  (l.map TxOut.value).sum

/-! ### Proof-transaction validation, src/common.rs lines 53 to 122 -/

/-- Script.is_v0_p2wpkh of the bitcoin crate: 22 bytes starting with
OP_0 (0x00) and a push of 20 (0x14). -/
def isV0P2wpkh (s : List Nat) : Bool :=
  s.length == 22 && s.take 2 == [0, 20]

/-- The value of the single proof output: 21_000_000 BTC in satoshi. -/
def PROOF_VALUE : Nat := 2100000000000000

/-- The external signature verification oracle: given the whole transaction
(for the BIP-143 sighash), the input and the previous output it spends, it
stands for the DER parse of witness 0 minus its trailing sighash byte, the
public key parse of witness 1, and secp256k1 verification of the sighash-ALL
digest. Every failure inside it collapses to one Bool. -/
def SigVerify : Type := Transaction → TxIn → TxOut → Bool

/-- Outcome of the per-input checks of proof validation, in source order. -/
inductive InputOutcome where
  | chainFail
  | missing
  | badType
  | unspentFail
  | spent
  | sigMissing
  | sigPanic
  | badSig
  | okay
deriving DecidableEq, Repr

/-- One iteration of the validation loop body, src/common.rs lines 76 to 117:
get_tx propagates chain errors; a missing previous output is MissingUTXO; a
non-P2WPKH previous script is InvalidInputType; a spent outpoint is
InputIsSpent; a missing witness item 0 or 1 is InvalidInputSignature; an
empty witness item 0 makes the length-minus-one computation underflow, a
panic under checked arithmetic; otherwise the crypto oracle decides. -/
def checkInput (chain : Blockchain) (verify : SigVerify) (tx : Transaction) (inp : TxIn) :
    InputOutcome :=
  match chain.get_tx inp.previous_output.txid with
  | none => InputOutcome.chainFail
  | some prev_tx =>
    match prev_tx.output[inp.previous_output.vout]? with
    | none => InputOutcome.missing
    | some prev_out =>
      if ¬ isV0P2wpkh prev_out.script_pubkey then InputOutcome.badType
      else
        match chain.is_unspent inp.previous_output with
        | none => InputOutcome.unspentFail
        | some false => InputOutcome.spent
        | some true =>
          match inp.witness[0]?, inp.witness[1]? with
          | none, _ => InputOutcome.sigMissing
          | some _, none => InputOutcome.sigMissing
          | some signature, some _ =>
            if signature = [] then InputOutcome.sigPanic
            else if verify tx inp prev_out then InputOutcome.okay
            else InputOutcome.badSig

/-- Mapping from a per-input outcome at a given index to the Ret value the
validation loop produces for it (the okay case is never consulted). -/
def outcomeToRet : InputOutcome → Nat → Ret Unit
  | InputOutcome.chainFail, _ => Ret.error Error.Chain
  | InputOutcome.missing, i => Ret.error (errProof (ProofTransactionError.MissingUTXO i))
  | InputOutcome.badType, i => Ret.error (errProof (ProofTransactionError.InvalidInputType i))
  | InputOutcome.unspentFail, _ => Ret.error Error.Chain
  | InputOutcome.spent, i => Ret.error (errProof (ProofTransactionError.InputIsSpent i))
  | InputOutcome.sigMissing, i =>
      Ret.error (errProof (ProofTransactionError.InvalidInputSignature i))
  | InputOutcome.sigPanic, _ => Ret.panic
  | InputOutcome.badSig, i =>
      Ret.error (errProof (ProofTransactionError.InvalidInputSignature i))
  | InputOutcome.okay, _ => Ret.ok ()

/-- The validation loop over the inputs, carrying the enumeration index. -/
def validateInputs (chain : Blockchain) (verify : SigVerify) (tx : Transaction) :
    List TxIn → Nat → Ret Unit
  | [], _ => Ret.ok ()
  | inp :: rest, idx =>
    match checkInput chain verify tx inp with
    | InputOutcome.okay => validateInputs chain verify tx rest (idx + 1)
    | out => outcomeToRet out idx

/-- TryFrom (Transaction, Blockchain) for ProofTransaction Validated,
src/common.rs lines 53 to 122. -/
def proofTransactionValidated (tx : Transaction) (chain : Blockchain) (verify : SigVerify) :
    Ret Transaction :=
  if tx.version ≠ 2 then Ret.error (errProof ProofTransactionError.InvalidVersion)
  else if tx.lock_time ≠ 0 then Ret.error (errProof ProofTransactionError.InvalidLocktime)
  else if ¬ (tx.output.length = 1 ∧
      (tx.output[0]?).map TxOut.value = some PROOF_VALUE ∧
      (tx.output[0]?).map TxOut.script_pubkey = some []) then
    Ret.error (errProof ProofTransactionError.InvalidProofOutput)
  else
    match validateInputs chain verify tx tx.input 0 with
    | Ret.ok _ => Ret.ok tx
    | Ret.error e => Ret.error e
    | Ret.panic => Ret.panic

/-! ### Sender signing and witness adoption, src/common.rs lines 284 to 349 -/

/-- A signing oracle is a total function from a transaction and the list of
input indices to sign to the signed transaction (src/signer.rs). -/
def SignerFun : Type := Transaction → List Nat → Transaction

/-- The Signer contract of spec section 4.2 over a SignerFun: only the
witnesses of the designated input indices change, each to a 2-item stack;
everything else is untouched. -/
def SignerContract (signer : SignerFun) : Prop :=
  ∀ tx idxs,
    (signer tx idxs).version = tx.version ∧
    (signer tx idxs).lock_time = tx.lock_time ∧
    (signer tx idxs).output = tx.output ∧
    (signer tx idxs).input.length = tx.input.length ∧
    (∀ i, i < tx.input.length → i ∉ idxs →
      (signer tx idxs).input[i]? = tx.input[i]?) ∧
    (∀ i, i < tx.input.length → i ∈ idxs → ∃ w, w.length = 2 ∧
      (signer tx idxs).input[i]? =
        (tx.input[i]?).map (fun inp => { inp with witness := w }))

/-- TryFrom (FinalTransaction Unsigned, Signer) for
FinalTransaction SenderSigned, src/common.rs lines 284 to 315: clear the
script_sig and witness of every input, then sign every index except
receiver_input_index. -/
def senderSign (ft : FinalTransaction) (signer : SignerFun) : FinalTransaction :=
  let cleared : Transaction :=
    { ft.transaction with
      input := ft.transaction.input.map (fun i => { i with script_sig := [], witness := [] }) }
  let idxs := (List.range cleared.input.length).filter (fun i => i ≠ ft.receiver_input_index)
  { transaction := signer cleared idxs
    receiver_input_index := ft.receiver_input_index }

/-- Witness extraction on the sender, src/client.rs lines 147 to 155: the
serialized witness of every input except receiver_input_index, in index
order. ser is the external consensus witness-stack serializer. -/
def extractWitnesses (ser : List (List Nat) → List Nat) (rii : Nat) :
    List TxIn → Nat → List (List Nat)
  | [], _ => []
  | inp :: rest, idx =>
    if idx = rii then extractWitnesses ser rii rest (idx + 1)
    else ser inp.witness :: extractWitnesses ser rii rest (idx + 1)

/-- The zip-with-filter loop of TryFrom (FinalTransaction Unsigned,
Vec WitnessWrapper) for FinalTransaction SenderSigned, src/common.rs lines
332 to 341: walk the inputs with their index, skip receiver_input_index,
consume one bundle entry per remaining input until the bundle runs out, and
replace that input witness with the deserialized stack; a failed parse is
InvalidWitness. deser is the external consensus witness-stack parser. -/
def adoptAux (deser : List Nat → Option (List (List Nat))) (rii : Nat) :
    List TxIn → Nat → List (List Nat) → Except FinalTransactionError (List TxIn)
  | [], _, _ => Except.ok []
  | inp :: rest, idx, ws =>
    if idx = rii then
      (adoptAux deser rii rest (idx + 1) ws).map (fun r => inp :: r)
    else
      match ws with
      | [] => (adoptAux deser rii rest (idx + 1) []).map (fun r => inp :: r)
      | w :: wrest =>
        match deser w with
        | none => Except.error FinalTransactionError.InvalidWitness
        | some stk =>
          (adoptAux deser rii rest (idx + 1) wrest).map
            (fun r => { inp with witness := stk } :: r)

/-- TryFrom (FinalTransaction Unsigned, Vec WitnessWrapper) for
FinalTransaction SenderSigned, src/common.rs lines 317 to 349. -/
def adoptWitnesses (ft : FinalTransaction) (witnesses : List (List Nat))
    (deser : List Nat → Option (List (List Nat))) :
    Except FinalTransactionError FinalTransaction :=
  (adoptAux deser ft.receiver_input_index ft.transaction.input 0 witnesses).map
    (fun inputs =>
      { transaction := { ft.transaction with input := inputs }
        receiver_input_index := ft.receiver_input_index })

/-! ### Wire messages and the RPC mainloop, src/lib.rs and src/jsonrpc.rs -/

/-- Request, src/lib.rs lines 98 to 113. -/
inductive Request where
  | Version (version : String)
  | Proof (transaction : Transaction)
  | Witnesses (fees : Nat) (change_script : List Nat) (receiver_input_position : Nat)
      (receiver_output_position : Nat) (witnesses : List (List (List Nat)))
deriving DecidableEq, Repr

/-- Response, src/lib.rs lines 186 to 198. -/
inductive Response where
  | Version (version : String)
  | Utxos (utxos : List OutPoint)
  | Txid (txid : Nat) (transaction : Transaction)
deriving DecidableEq, Repr

/-- Message, src/lib.rs lines 117 to 128. -/
inductive Message where
  | request (r : Request)
  | response (r : Response)
  | error (e : ProtocolError)
deriving DecidableEq, Repr

/-- TryFrom Message for Request, src/lib.rs lines 146 to 156. -/
def requestOfMessage : Message → Except Error Request
  | Message.request r => Except.ok r
  | _ => Except.error (Error.Protocol ProtocolError.UnexpectedMessage)

/-- TryFrom Message for Response, src/lib.rs lines 157 to 167. -/
def responseOfMessage : Message → Except Error Response
  | Message.response r => Except.ok r
  | _ => Except.error (Error.Protocol ProtocolError.UnexpectedMessage)

/-- Outcome of one mainloop iteration: a panic, session failure with the
frames written during the iteration, session success with a result, or
continuation of the loop. -/
inductive LoopStep (ρ : Type) where
  | panic
  | failure (e : Error) (sent : List Message)
  | success (r : ρ) (sent : List Message)
  | cont (sent : List Message)
deriving DecidableEq, Repr

/-- One iteration of JsonRpc::mainloop after a line has been read and parsed
into a Message, src/jsonrpc.rs lines 102 to 124: an error envelope becomes
PeerError; otherwise the message is narrowed to the expected direction with
try_into().unwrap(), a panic when the narrowing fails; the state handler is
then consulted: an outbound message is written, a Protocol error is written
as one error frame and returned, every other handler result is discarded;
finally done() either finishes the session or continues the loop. The handler
state mutation is abstracted: doneF is the done() verdict on the post-handler
state. -/
def mainloopIter {ι ρ : Type} (narrow : Message → Except Error ι)
    (handle : ι → Except Error (Option Message)) (doneF : Option ρ) (m : Message) : LoopStep ρ :=
  match m with
  | Message.error e => LoopStep.failure (Error.PeerError e) []
  | _ =>
    match narrow m with
    | Except.error _ => LoopStep.panic
    | Except.ok parsed =>
      match handle parsed with
      | Except.ok (some outMsg) =>
        match doneF with
        | some r => LoopStep.success r [outMsg]
        | none => LoopStep.cont [outMsg]
      | Except.error (Error.Protocol e) =>
        LoopStep.failure (Error.Protocol e) [Message.error e]
      | _ =>
        match doneF with
        | some r => LoopStep.success r []
        | none => LoopStep.cont []

/-! ### The receiver FSM arm for a Proof request, src/server.rs lines 88 to 108 -/

/-- The ClientVersion arm of ServerState::transition on Request::Proof:
validate the proof transaction, ask the chain oracle for decoys (the random
seed is a parameter), draw a position (gen_range(0, 100) is a parameter with
contract pos below 100) and Vec::insert our_utxo there; Vec::insert panics
when the position exceeds the decoy count. The emitted Response::Utxos list
is returned. -/
def serverProofTransition (our_utxo : OutPoint) (chain : Blockchain) (verify : SigVerify)
    (seed : Nat) (pos : Nat) (transaction : Transaction) : Ret (List OutPoint) :=
  match proofTransactionValidated transaction chain verify with
  | Ret.panic => Ret.panic
  | Ret.error e => Ret.error e
  | Ret.ok _ =>
    match chain.get_random_utxo our_utxo seed with
    | none => Ret.error Error.Chain
    | some utxos =>
      if pos ≤ utxos.length then Ret.ok (utxos.insertIdx pos our_utxo)
      else Ret.panic

/-! ### A concrete witness-stack codec

The bitcoin crate consensus codec is external; the definitions below are a
concrete injective stand-in used to instantiate the codec parameters in
witness and counterexample theorems: a stack is encoded as its item count
followed by each item as length then bytes. -/

def serW (w : List (List Nat)) : List Nat :=
  w.length :: w.flatMap (fun e => e.length :: e)

def readItem : List Nat → Option (List Nat × List Nat)
  | [] => none
  | n :: rest => if n ≤ rest.length then some (rest.take n, rest.drop n) else none

def readItems : Nat → List Nat → Option (List (List Nat) × List Nat)
  | 0, rest => some ([], rest)
  | n + 1, bytes =>
    match readItem bytes with
    | none => none
    | some (item, rest) =>
      match readItems n rest with
      | none => none
      | some (items, rest2) => some (item :: items, rest2)

def deserW (b : List Nat) : Option (List (List Nat)) :=
  match b with
  | [] => none
  | n :: rest =>
    match readItems n rest with
    | some (items, []) => some items
    | _ => none

theorem readItems_serW (w : List (List Nat)) (tail : List Nat) :
    readItems w.length (w.flatMap (fun e => e.length :: e) ++ tail) = some (w, tail) := by
  induction w with
  | nil => simp [readItems]
  | cons e rest ih =>
    have hb : (e :: rest).flatMap (fun e => e.length :: e) ++ tail
        = e.length :: (e ++ (rest.flatMap (fun e => e.length :: e) ++ tail)) := by
      simp [List.flatMap]
    rw [List.length_cons, hb]
    simp only [readItems, readItem]
    rw [if_pos (by simp)]
    simp only [List.take_left, List.drop_left]
    rw [ih]

/-- The concrete codec round-trips. -/
theorem deserW_serW (w : List (List Nat)) : deserW (serW w) = some w := by
  have h := readItems_serW w []
  simp only [List.append_nil] at h
  simp only [serW, deserW, h]

/-! ### Lemmas about the sender-input summation and list insertion -/

theorem sumInputValues_ok (chain : Blockchain) :
    ∀ (l : List TxIn) (a s : Nat), sumInputValues chain l a = Ret.ok s →
      a ≤ s ∧ prevValueSum chain l = some (s - a) := by
  intro l
  induction l with
  | nil =>
    intro a s h
    simp only [sumInputValues, Ret.ok.injEq] at h
    subst h
    simp [prevValueSum]
  | cons inp rest ih =>
    intro a s h
    simp only [sumInputValues] at h
    split at h
    · cases h
    next prev_tx hg =>
      split at h
      · cases h
      next pout hv =>
        simp only [addU64] at h
        by_cases hb : a + pout.value < U64MOD
        · rw [if_pos hb] at h
          simp only at h
          obtain ⟨hle, hsum⟩ := ih (a + pout.value) s h
          refine ⟨by omega, ?_⟩
          simp only [prevValueSum, prevValue, hg, hv, Option.map_some', hsum]
          congr 1
          omega
        · rw [if_neg hb] at h
          cases h

theorem prevValueSum_insertIdx (chain : Blockchain) (x : TxIn) (v : Nat)
    (hx : prevValue chain x = some v) :
    ∀ (n : Nat) (l : List TxIn) (t : Nat), n ≤ l.length → prevValueSum chain l = some t →
      prevValueSum chain (l.insertIdx n x) = some (v + t) := by
  intro n
  induction n with
  | zero =>
    intro l t _ hl
    simp [List.insertIdx_zero, prevValueSum, hx, hl]
  | succ n ih =>
    intro l t hn hl
    cases l with
    | nil => simp at hn
    | cons y ys =>
      rw [List.insertIdx_succ_cons]
      cases hy : prevValue chain y with
      | none => simp [prevValueSum, hy] at hl
      | some vy =>
        cases hys : prevValueSum chain ys with
        | none => simp [prevValueSum, hy, hys] at hl
        | some ty =>
          have ht : t = vy + ty := by
            simp [prevValueSum, hy, hys] at hl
            omega
          subst ht
          have h2 := ih ys ty (by simpa using hn) hys
          simp only [prevValueSum, hy, h2, Option.some.injEq]
          omega

theorem outputValueSum_insertIdx (x : TxOut) :
    ∀ (n : Nat) (l : List TxOut), n ≤ l.length →
      outputValueSum (l.insertIdx n x) = x.value + outputValueSum l := by
  intro n
  induction n with
  | zero =>
    intro l _
    simp [List.insertIdx_zero, outputValueSum]
  | succ n ih =>
    intro l hn
    cases l with
    | nil => simp at hn
    | cons y ys =>
      rw [List.insertIdx_succ_cons]
      simp only [outputValueSum, List.map_cons, List.sum_cons] at ih ⊢
      rw [ih ys (by simpa using hn)]
      omega

/-- Characterization of a successful unsigned final-transaction conversion:
the intermediate values it computed and the shape of the result. -/
theorem finalTransactionUnsigned_ok_spec
    (meta : FinalTransactionMeta) (chain : Blockchain) (ft : FinalTransaction)
    (hok : finalTransactionUnsigned meta chain = Ret.ok ft) :
    ∃ siv v1 change rtx rpout rv,
      sumInputValues chain meta.tx.input 0 = Ret.ok siv ∧
      checkedSub siv meta.fees = some v1 ∧
      checkedSub v1 meta.receiver_txout.value = some change ∧
      chain.get_tx meta.receiver_txin.previous_output.txid = some rtx ∧
      rtx.output[meta.receiver_txin.previous_output.vout]? = some rpout ∧
      addU64 meta.receiver_txout.value rpout.value = Ret.ok rv ∧
      meta.receiver_output_index ≤ 1 ∧
      meta.receiver_txin.sequence = 4294967295 ∧
      meta.receiver_txin.script_sig = [] ∧
      meta.receiver_txin.witness = [] ∧
      meta.receiver_input_index ≤ meta.tx.input.length ∧
      ft = { transaction :=
              { version := meta.tx.version,
                lock_time := meta.tx.lock_time,
                input := meta.tx.input.insertIdx meta.receiver_input_index meta.receiver_txin,
                output :=
                  List.insertIdx meta.receiver_output_index
                    { value := rv, script_pubkey := meta.receiver_txout.script_pubkey }
                    [{ value := change, script_pubkey := meta.sender_script }] },
             receiver_input_index := meta.receiver_input_index } := by
  unfold finalTransactionUnsigned at hok
  split at hok
  · cases hok
  · cases hok
  · next siv hsiv =>
    split at hok
    · simp [retFinalErr] at hok
    · next v1 hv1 =>
      split at hok
      · simp [retFinalErr] at hok
      · next change hchange =>
        split at hok
        · cases hok
        · next rtx hrtx =>
          split at hok
          · cases hok
          · next rpout hrpout =>
            split at hok
            · cases hok
            · cases hok
            · next rv hrv =>
              split at hok
              · simp [retFinalErr] at hok
              · next hroi =>
                split at hok
                · simp [retFinalErr] at hok
                · next hseq =>
                  split at hok
                  · simp [retFinalErr] at hok
                  · next hsig =>
                    split at hok
                    · simp [retFinalErr] at hok
                    · next hrii =>
                      injection hok with hok
                      push_neg at hsig
                      exact ⟨siv, v1, change, rtx, rpout, rv, hsiv, hv1, hchange, hrtx,
                        hrpout, hrv, by omega, by omega, hsig.1, hsig.2, by omega, hok.symm⟩

/-! ### C1: value conservation of final-transaction assembly -/

/-- C1: for every FinalTransactionMeta and blockchain for which the unsigned
final-transaction conversion succeeds, and for which the previous-output
lookups of the resulting inputs succeed (with total value s), the sum s of
the previous-output values referenced by the resulting inputs minus the sum
of the resulting output values equals meta.fees. -/
theorem final_unsigned_value_conservation
    (meta : FinalTransactionMeta) (chain : Blockchain) (ft : FinalTransaction) (s : Nat)
    (hok : finalTransactionUnsigned meta chain = Ret.ok ft)
    (hs : prevValueSum chain ft.transaction.input = some s) :
    s = outputValueSum ft.transaction.output + meta.fees := by
  obtain ⟨siv, v1, change, rtx, rpout, rv, hsiv, hv1, hchange, hrtx, hrpout, hrv,
    hroi, hseq, hss, hw, hrii, hft⟩ := finalTransactionUnsigned_ok_spec meta chain ft hok
  subst hft
  obtain ⟨-, hps⟩ := sumInputValues_ok chain meta.tx.input 0 siv hsiv
  rw [Nat.sub_zero] at hps
  have hpv : prevValue chain meta.receiver_txin = some rpout.value := by
    simp [prevValue, hrtx, hrpout]
  have hfle : meta.fees ≤ siv ∧ v1 = siv - meta.fees := by
    by_cases h : meta.fees ≤ siv
    · simp only [checkedSub, if_pos h, Option.some.injEq] at hv1
      exact ⟨h, hv1.symm⟩
    · rw [checkedSub, if_neg h] at hv1
      cases hv1
  have hrle : meta.receiver_txout.value ≤ v1 ∧
      change = v1 - meta.receiver_txout.value := by
    by_cases h : meta.receiver_txout.value ≤ v1
    · simp only [checkedSub, if_pos h, Option.some.injEq] at hchange
      exact ⟨h, hchange.symm⟩
    · rw [checkedSub, if_neg h] at hchange
      cases hchange
  have hrveq : rv = meta.receiver_txout.value + rpout.value := by
    by_cases h : meta.receiver_txout.value + rpout.value < U64MOD
    · simp only [addU64, if_pos h, Ret.ok.injEq] at hrv
      exact hrv.symm
    · rw [addU64, if_neg h] at hrv
      cases hrv
  have hin : prevValueSum chain
      (meta.tx.input.insertIdx meta.receiver_input_index meta.receiver_txin)
      = some (rpout.value + siv) :=
    prevValueSum_insertIdx chain meta.receiver_txin rpout.value hpv
      meta.receiver_input_index meta.tx.input siv hrii hps
  simp only [hin, Option.some.injEq] at hs
  have hout : outputValueSum
      (List.insertIdx meta.receiver_output_index
        { value := rv, script_pubkey := meta.receiver_txout.script_pubkey }
        [{ value := change, script_pubkey := meta.sender_script }])
      = rv + change := by
    rw [outputValueSum_insertIdx _ meta.receiver_output_index _ (by simp; omega)]
    simp [outputValueSum]
  simp only [hout]
  omega

/-! ### Concrete instances used by witnesses and counterexamples -/

/-- A v0 P2WPKH script: 0x00 0x14 then a 20-byte hash. -/
def wscript : List Nat :=
  [0, 20, 1, 1, 1, 1, 1, 1, 1, 1, 1, 1, 1, 1, 1, 1, 1, 1, 1, 1, 1, 1]

def cPrevTx1 : Transaction :=
  { version := 2, lock_time := 0, input := [],
    output := [{ value := 100000000, script_pubkey := wscript }] }

def cPrevTx2 : Transaction :=
  { version := 2, lock_time := 0, input := [],
    output := [{ value := 200000000, script_pubkey := wscript }] }

def cPrevTx3 : Transaction :=
  { version := 2, lock_time := 0, input := [],
    output := [{ value := 50, script_pubkey := [1, 2, 3] }] }

def cPrevTx4 : Transaction :=
  { version := 2, lock_time := 0, input := [],
    output := [{ value := 60, script_pubkey := wscript }] }

def cChain : Blockchain :=
  { get_tx := fun t =>
      if t = 1 then some cPrevTx1 else if t = 2 then some cPrevTx2
      else if t = 3 then some cPrevTx3 else if t = 4 then some cPrevTx4 else none,
    is_unspent := fun op => some (op.txid != 4),
    get_random_utxo := fun _ _ => some [] }

def cSenderIn : TxIn :=
  { previous_output := { txid := 1, vout := 0 }, script_sig := [],
    sequence := 4294967295, witness := [[48, 1], [2, 2]] }

def cRecvIn : TxIn :=
  { previous_output := { txid := 2, vout := 0 }, script_sig := [],
    sequence := 4294967295, witness := [] }

def cMeta1 : FinalTransactionMeta :=
  { tx := { version := 2, lock_time := 0, input := [cSenderIn], output := [] },
    fees := 5000,
    sender_script := [9, 9],
    receiver_txin := cRecvIn,
    receiver_input_index := 1,
    receiver_txout := { value := 3000000, script_pubkey := [7] },
    receiver_output_index := 1 }

/-- The unsigned final transaction that cMeta1 assembles to. -/
def cFt1 : FinalTransaction :=
  { transaction :=
      { version := 2, lock_time := 0,
        input := [cSenderIn, cRecvIn],
        output := [{ value := 96995000, script_pubkey := [9, 9] },
                   { value := 203000000, script_pubkey := [7] }] },
    receiver_input_index := 1 }

/-- Witness for C1: the conversion of cMeta1 over cChain succeeds, the
previous-output sum of the result is 300000000, and conservation holds with
fees 5000. -/
theorem final_unsigned_value_conservation_witness :
    finalTransactionUnsigned cMeta1 cChain = Ret.ok cFt1 ∧
    prevValueSum cChain cFt1.transaction.input = some 300000000 ∧
    300000000 = outputValueSum cFt1.transaction.output + cMeta1.fees :=
  ⟨by decide, by decide,
    final_unsigned_value_conservation cMeta1 cChain cFt1 300000000 (by decide) (by decide)⟩

/-! ### C2: shape of the unsigned final transaction -/

theorem getElem?_insertIdx_self {α : Type _} (l : List α) (x : α) (n : Nat)
    (hn : n ≤ l.length) : (l.insertIdx n x)[n]? = some x := by
  have hlen : n < (l.insertIdx n x).length := by
    rw [List.length_insertIdx n l hn]
    omega
  rw [List.getElem?_eq_getElem hlen, List.getElem_insertIdx_self l x n hn]

/-- C2: a successful unsigned final-transaction conversion yields exactly one
more input than the proof transaction had, exactly 2 outputs (sender change
plus receiver output), and the receiver input sits at receiver_input_index.
This holds for every meta on which the conversion succeeds; in particular for
those with receiver_output_index and receiver_input_index within bounds. -/
theorem final_unsigned_shape
    (meta : FinalTransactionMeta) (chain : Blockchain) (ft : FinalTransaction)
    (hok : finalTransactionUnsigned meta chain = Ret.ok ft) :
    ft.transaction.input.length = meta.tx.input.length + 1 ∧
    ft.transaction.output.length = 2 ∧
    ft.transaction.input[meta.receiver_input_index]? = some meta.receiver_txin ∧
    ft.receiver_input_index = meta.receiver_input_index := by
  obtain ⟨siv, v1, change, rtx, rpout, rv, hsiv, hv1, hchange, hrtx, hrpout, hrv,
    hroi, hseq, hss, hw, hrii, hft⟩ := finalTransactionUnsigned_ok_spec meta chain ft hok
  subst hft
  refine ⟨?_, ?_, ?_, rfl⟩
  · simpa using List.length_insertIdx _ _ hrii
  · simpa using List.length_insertIdx meta.receiver_output_index
      [({ value := change, script_pubkey := meta.sender_script } : TxOut)]
      (by simpa using hroi)
  · exact getElem?_insertIdx_self _ _ _ hrii

/-- Witness for C2: the concrete conversion of cMeta1 has 2 inputs, 2
outputs, and the receiver input at index 1. -/
theorem final_unsigned_shape_witness :
    finalTransactionUnsigned cMeta1 cChain = Ret.ok cFt1 ∧
    cFt1.transaction.input.length = cMeta1.tx.input.length + 1 ∧
    cFt1.transaction.output.length = 2 ∧
    cFt1.transaction.input[cMeta1.receiver_input_index]? = some cMeta1.receiver_txin ∧
    cFt1.receiver_input_index = cMeta1.receiver_input_index :=
  ⟨by decide, final_unsigned_shape cMeta1 cChain cFt1 (by decide)⟩

/-! ### C6: boundary behaviour of the unsigned final-transaction conversion -/

/-- The receiver-stage lookups and checks of the conversion, everything after
the change computation and before the receiver-input index check. -/
def ReceiverStageOk (meta : FinalTransactionMeta) (chain : Blockchain)
    (rtx : Transaction) (rpout : TxOut) (rv : Nat) : Prop :=
  chain.get_tx meta.receiver_txin.previous_output.txid = some rtx ∧
  rtx.output[meta.receiver_txin.previous_output.vout]? = some rpout ∧
  addU64 meta.receiver_txout.value rpout.value = Ret.ok rv ∧
  meta.receiver_output_index ≤ 1 ∧
  meta.receiver_txin.sequence = 4294967295 ∧
  meta.receiver_txin.script_sig = [] ∧
  meta.receiver_txin.witness = []

/-- C6: boundary behaviour. Underflow of the first subtraction (sender input
value minus fees) or of the second (minus the receiver amount) raises
NegativeSenderAmount; an exact-zero change is permitted (the conversion
succeeds when everything else is in order); receiver_input_index equal to the
input count appends the receiver input at the end; strictly greater is
rejected with InvalidReceiverInputIndex. -/
theorem final_unsigned_boundary :
    (∀ meta chain siv, sumInputValues chain meta.tx.input 0 = Ret.ok siv →
      siv < meta.fees →
      finalTransactionUnsigned meta chain =
        retFinalErr FinalTransactionError.NegativeSenderAmount) ∧
    (∀ meta chain siv, sumInputValues chain meta.tx.input 0 = Ret.ok siv →
      meta.fees ≤ siv → siv - meta.fees < meta.receiver_txout.value →
      finalTransactionUnsigned meta chain =
        retFinalErr FinalTransactionError.NegativeSenderAmount) ∧
    (∀ meta chain siv rtx rpout rv, sumInputValues chain meta.tx.input 0 = Ret.ok siv →
      ReceiverStageOk meta chain rtx rpout rv →
      siv = meta.fees + meta.receiver_txout.value →
      meta.receiver_input_index ≤ meta.tx.input.length →
      ∃ ft, finalTransactionUnsigned meta chain = Ret.ok ft) ∧
    (∀ meta chain siv rtx rpout rv, sumInputValues chain meta.tx.input 0 = Ret.ok siv →
      ReceiverStageOk meta chain rtx rpout rv →
      meta.fees + meta.receiver_txout.value ≤ siv →
      meta.receiver_input_index = meta.tx.input.length →
      ∃ ft, finalTransactionUnsigned meta chain = Ret.ok ft ∧
        ft.transaction.input = meta.tx.input ++ [meta.receiver_txin]) ∧
    (∀ meta chain siv rtx rpout rv, sumInputValues chain meta.tx.input 0 = Ret.ok siv →
      ReceiverStageOk meta chain rtx rpout rv →
      meta.fees + meta.receiver_txout.value ≤ siv →
      meta.receiver_input_index > meta.tx.input.length →
      finalTransactionUnsigned meta chain =
        retFinalErr FinalTransactionError.InvalidReceiverInputIndex) := by
  refine ⟨?_, ?_, ?_, ?_, ?_⟩
  · intro meta chain siv hsiv hlt
    have h1 : checkedSub siv meta.fees = none := by
      rw [checkedSub, if_neg (by omega)]
    simp only [finalTransactionUnsigned, hsiv, h1]
  · intro meta chain siv hsiv hle hlt
    have h1 : checkedSub siv meta.fees = some (siv - meta.fees) := by
      rw [checkedSub, if_pos hle]
    have h2 : checkedSub (siv - meta.fees) meta.receiver_txout.value = none := by
      rw [checkedSub, if_neg (by omega)]
    simp only [finalTransactionUnsigned, hsiv, h1, h2]
  · intro meta chain siv rtx rpout rv hsiv hstage hsum hrii
    obtain ⟨hrtx, hrpout, hrv, hroi, hseq, hss, hw⟩ := hstage
    have h1 : checkedSub siv meta.fees = some (siv - meta.fees) := by
      rw [checkedSub, if_pos (by omega)]
    have h2 : checkedSub (siv - meta.fees) meta.receiver_txout.value
        = some (siv - meta.fees - meta.receiver_txout.value) := by
      rw [checkedSub, if_pos (by omega)]
    simp only [finalTransactionUnsigned, hsiv, h1, h2, hrtx, hrpout, hrv]
    rw [if_neg (by omega), if_neg (by simp [hseq]), if_neg (by simp [hss, hw]),
      if_neg (by omega)]
    exact ⟨_, rfl⟩
  · intro meta chain siv rtx rpout rv hsiv hstage hsum hrii
    obtain ⟨hrtx, hrpout, hrv, hroi, hseq, hss, hw⟩ := hstage
    have h1 : checkedSub siv meta.fees = some (siv - meta.fees) := by
      rw [checkedSub, if_pos (by omega)]
    have h2 : checkedSub (siv - meta.fees) meta.receiver_txout.value
        = some (siv - meta.fees - meta.receiver_txout.value) := by
      rw [checkedSub, if_pos (by omega)]
    simp only [finalTransactionUnsigned, hsiv, h1, h2, hrtx, hrpout, hrv]
    rw [if_neg (by omega), if_neg (by simp [hseq]), if_neg (by simp [hss, hw]),
      if_neg (by omega)]
    refine ⟨_, rfl, ?_⟩
    show meta.tx.input.insertIdx meta.receiver_input_index meta.receiver_txin
      = meta.tx.input ++ [meta.receiver_txin]
    rw [hrii]
    exact List.insertIdx_length_self meta.tx.input meta.receiver_txin
  · intro meta chain siv rtx rpout rv hsiv hstage hsum hrii
    obtain ⟨hrtx, hrpout, hrv, hroi, hseq, hss, hw⟩ := hstage
    have h1 : checkedSub siv meta.fees = some (siv - meta.fees) := by
      rw [checkedSub, if_pos (by omega)]
    have h2 : checkedSub (siv - meta.fees) meta.receiver_txout.value
        = some (siv - meta.fees - meta.receiver_txout.value) := by
      rw [checkedSub, if_pos (by omega)]
    simp only [finalTransactionUnsigned, hsiv, h1, h2, hrtx, hrpout, hrv]
    rw [if_neg (by omega), if_neg (by simp [hseq]), if_neg (by simp [hss, hw]),
      if_pos (by omega)]

def cMeta6a : FinalTransactionMeta := { cMeta1 with fees := 200000000 }

def cMeta6b : FinalTransactionMeta :=
  { cMeta1 with receiver_txout := { value := 100000000, script_pubkey := [7] } }

def cMeta6c : FinalTransactionMeta :=
  { cMeta1 with receiver_txout := { value := 99995000, script_pubkey := [7] } }

def cMeta6e : FinalTransactionMeta := { cMeta1 with receiver_input_index := 2 }

/-- Witness for C6: all five boundary conjuncts instantiated on concrete
metas over cChain. -/
theorem final_unsigned_boundary_witness :
    (finalTransactionUnsigned cMeta6a cChain =
      retFinalErr FinalTransactionError.NegativeSenderAmount) ∧
    (finalTransactionUnsigned cMeta6b cChain =
      retFinalErr FinalTransactionError.NegativeSenderAmount) ∧
    (∃ ft, finalTransactionUnsigned cMeta6c cChain = Ret.ok ft) ∧
    (∃ ft, finalTransactionUnsigned cMeta1 cChain = Ret.ok ft ∧
      ft.transaction.input = cMeta1.tx.input ++ [cMeta1.receiver_txin]) ∧
    (finalTransactionUnsigned cMeta6e cChain =
      retFinalErr FinalTransactionError.InvalidReceiverInputIndex) :=
  ⟨final_unsigned_boundary.1 cMeta6a cChain 100000000 (by decide) (by decide),
   final_unsigned_boundary.2.1 cMeta6b cChain 100000000 (by decide) (by decide) (by decide),
   final_unsigned_boundary.2.2.1 cMeta6c cChain 100000000 cPrevTx2
     { value := 200000000, script_pubkey := wscript } 299995000
     (by decide) (by refine ⟨?_, ?_, ?_, ?_, ?_, ?_, ?_⟩ <;> decide) (by decide) (by decide),
   final_unsigned_boundary.2.2.2.1 cMeta1 cChain 100000000 cPrevTx2
     { value := 200000000, script_pubkey := wscript } 203000000
     (by decide) (by refine ⟨?_, ?_, ?_, ?_, ?_, ?_, ?_⟩ <;> decide) (by decide) (by decide),
   final_unsigned_boundary.2.2.2.2 cMeta6e cChain 100000000 cPrevTx2
     { value := 200000000, script_pubkey := wscript } 203000000
     (by decide) (by refine ⟨?_, ?_, ?_, ?_, ?_, ?_, ?_⟩ <;> decide) (by decide) (by decide)⟩

/-! ### C9: unguarded indexing panic in final assembly -/

def cBadIn : TxIn :=
  { previous_output := { txid := 1, vout := 5 }, script_sig := [],
    sequence := 4294967295, witness := [] }

def cMeta9 : FinalTransactionMeta :=
  { cMeta1 with tx := { version := 2, lock_time := 0, input := [cBadIn], output := [] } }

def cProofTx9 : Transaction :=
  { version := 2, lock_time := 0, input := [cBadIn],
    output := [{ value := PROOF_VALUE, script_pubkey := [] }] }

/-- C9: the unsigned final-transaction conversion indexes the previous
outputs without a bound check: on a meta whose sender input references vout 5
of a transaction with a single output, it panics instead of returning an
error, while proof validation on the analogous transaction returns
MissingUTXO 0. -/
theorem final_unsigned_panics_on_missing_prevout :
    finalTransactionUnsigned cMeta9 cChain = Ret.panic ∧
    proofTransactionValidated cProofTx9 cChain (fun _ _ _ => true)
      = Ret.error (errProof (ProofTransactionError.MissingUTXO 0)) :=
  ⟨by decide, by decide⟩

/-! ### C3: proof-validation error cases in source order -/

/-- The validation loop stops at the first input whose checks fail and maps
its outcome to the corresponding error at that enumeration index. -/
theorem validateInputs_first (chain : Blockchain) (verify : SigVerify) (tx : Transaction) :
    ∀ (l : List TxIn) (base i : Nat) (inp : TxIn),
      l[i]? = some inp →
      (∀ j inpj, j < i → l[j]? = some inpj →
        checkInput chain verify tx inpj = InputOutcome.okay) →
      checkInput chain verify tx inp ≠ InputOutcome.okay →
      validateInputs chain verify tx l base
        = outcomeToRet (checkInput chain verify tx inp) (base + i) := by
  intro l
  induction l with
  | nil =>
    intro base i inp h
    simp at h
  | cons y ys ih =>
    intro base i inp hget hprev hbad
    cases i with
    | zero =>
      have hy : y = inp := by simpa using hget
      subst hy
      rw [Nat.add_zero]
      cases hc : checkInput chain verify tx y
      case okay => exact absurd hc hbad
      all_goals simp [validateInputs, hc, outcomeToRet]
    | succ i =>
      have hy : checkInput chain verify tx y = InputOutcome.okay :=
        hprev 0 y (Nat.succ_pos i) (by simp)
      have hget2 : ys[i]? = some inp := by simpa using hget
      have hprev2 : ∀ j inpj, j < i → ys[j]? = some inpj →
          checkInput chain verify tx inpj = InputOutcome.okay := by
        intro j inpj hj hjget
        exact hprev (j + 1) inpj (by omega) (by simpa using hjget)
      have hstep : validateInputs chain verify tx (y :: ys) base
          = validateInputs chain verify tx ys (base + 1) := by
        simp [validateInputs, hy]
      rw [hstep, ih (base + 1) i inp hget2 hprev2 hbad]
      congr 1
      omega

/-- C3: proof validation rejects with a specific variant per case, in source
order: wrong version, then wrong locktime, then wrong proof-output shape;
then, for the first failing input index i (all inputs before i passing every
check), a missing previous output is MissingUTXO i, a non-P2WPKH previous
script is InvalidInputType i, a spent outpoint is InputIsSpent i, and a
witness whose signature the crypto oracle rejects is InvalidInputSignature i.
-/
theorem proof_validation_error_cases :
    (∀ (tx : Transaction) (chain : Blockchain) (verify : SigVerify), tx.version ≠ 2 →
      proofTransactionValidated tx chain verify
        = Ret.error (errProof ProofTransactionError.InvalidVersion)) ∧
    (∀ (tx : Transaction) (chain : Blockchain) (verify : SigVerify),
      tx.version = 2 → tx.lock_time ≠ 0 →
      proofTransactionValidated tx chain verify
        = Ret.error (errProof ProofTransactionError.InvalidLocktime)) ∧
    (∀ (tx : Transaction) (chain : Blockchain) (verify : SigVerify),
      tx.version = 2 → tx.lock_time = 0 →
      ¬ (tx.output.length = 1 ∧
         (tx.output[0]?).map TxOut.value = some PROOF_VALUE ∧
         (tx.output[0]?).map TxOut.script_pubkey = some []) →
      proofTransactionValidated tx chain verify
        = Ret.error (errProof ProofTransactionError.InvalidProofOutput)) ∧
    (∀ (tx : Transaction) (chain : Blockchain) (verify : SigVerify) (i : Nat) (inp : TxIn),
      tx.version = 2 → tx.lock_time = 0 →
      (tx.output.length = 1 ∧
       (tx.output[0]?).map TxOut.value = some PROOF_VALUE ∧
       (tx.output[0]?).map TxOut.script_pubkey = some []) →
      tx.input[i]? = some inp →
      (∀ j inpj, j < i → tx.input[j]? = some inpj →
        checkInput chain verify tx inpj = InputOutcome.okay) →
      ((checkInput chain verify tx inp = InputOutcome.missing →
         proofTransactionValidated tx chain verify
           = Ret.error (errProof (ProofTransactionError.MissingUTXO i))) ∧
       (checkInput chain verify tx inp = InputOutcome.badType →
         proofTransactionValidated tx chain verify
           = Ret.error (errProof (ProofTransactionError.InvalidInputType i))) ∧
       (checkInput chain verify tx inp = InputOutcome.spent →
         proofTransactionValidated tx chain verify
           = Ret.error (errProof (ProofTransactionError.InputIsSpent i))) ∧
       (checkInput chain verify tx inp = InputOutcome.badSig →
         proofTransactionValidated tx chain verify
           = Ret.error (errProof (ProofTransactionError.InvalidInputSignature i))))) := by
  refine ⟨?_, ?_, ?_, ?_⟩
  · intro tx chain verify hver
    rw [proofTransactionValidated, if_pos hver]
  · intro tx chain verify hver hlt
    rw [proofTransactionValidated, if_neg (by simp [hver]), if_pos hlt]
  · intro tx chain verify hver hlt hshape
    rw [proofTransactionValidated, if_neg (by simp [hver]), if_neg (by simp [hlt]),
      if_pos hshape]
  · intro tx chain verify i inp hver hlt hshape hget hprev
    have imp : ∀ (out : InputOutcome) (e : Error), checkInput chain verify tx inp = out →
        out ≠ InputOutcome.okay → outcomeToRet out i = Ret.error e →
        proofTransactionValidated tx chain verify = Ret.error e := by
      intro out e hout hne herr
      have hv := validateInputs_first chain verify tx tx.input 0 i inp hget hprev
        (by rw [hout]; exact hne)
      rw [hout, Nat.zero_add, herr] at hv
      rw [proofTransactionValidated, if_neg (by simp [hver]), if_neg (by simp [hlt]),
        if_neg (not_not_intro hshape), hv]
    exact ⟨fun h => imp InputOutcome.missing _ h (by simp) rfl,
      fun h => imp InputOutcome.badType _ h (by simp) rfl,
      fun h => imp InputOutcome.spent _ h (by simp) rfl,
      fun h => imp InputOutcome.badSig _ h (by simp) rfl⟩

def cVerifyTrue : SigVerify := fun _ _ _ => true

def cVerifyFalse : SigVerify := fun _ _ _ => false

def cProofOut : TxOut := { value := PROOF_VALUE, script_pubkey := [] }

def cBadTypeIn : TxIn :=
  { previous_output := { txid := 3, vout := 0 }, script_sig := [],
    sequence := 4294967295, witness := [[48, 1], [2, 2]] }

def cSpentIn : TxIn :=
  { previous_output := { txid := 4, vout := 0 }, script_sig := [],
    sequence := 4294967295, witness := [[48, 1], [2, 2]] }

def cPT1 : Transaction := { version := 1, lock_time := 0, input := [], output := [] }

def cPT2 : Transaction := { version := 2, lock_time := 7, input := [], output := [] }

def cPT3 : Transaction := { version := 2, lock_time := 0, input := [], output := [] }

def cPT4a : Transaction :=
  { version := 2, lock_time := 0, input := [cSenderIn, cBadIn], output := [cProofOut] }

def cPT4b : Transaction :=
  { version := 2, lock_time := 0, input := [cSenderIn, cBadTypeIn], output := [cProofOut] }

def cPT4c : Transaction :=
  { version := 2, lock_time := 0, input := [cSenderIn, cSpentIn], output := [cProofOut] }

def cPT4d : Transaction :=
  { version := 2, lock_time := 0, input := [cSenderIn], output := [cProofOut] }

/-- Witness for C3: each rejection case instantiated concretely: wrong
version, wrong locktime, wrong output shape, and for the per-input loop a
missing previous output at index 1, a non-P2WPKH previous output at index 1,
a spent outpoint at index 1 (index 0 passing in each), and a rejected
signature at index 0. -/
theorem proof_validation_error_cases_witness :
    proofTransactionValidated cPT1 cChain cVerifyTrue
      = Ret.error (errProof ProofTransactionError.InvalidVersion) ∧
    proofTransactionValidated cPT2 cChain cVerifyTrue
      = Ret.error (errProof ProofTransactionError.InvalidLocktime) ∧
    proofTransactionValidated cPT3 cChain cVerifyTrue
      = Ret.error (errProof ProofTransactionError.InvalidProofOutput) ∧
    proofTransactionValidated cPT4a cChain cVerifyTrue
      = Ret.error (errProof (ProofTransactionError.MissingUTXO 1)) ∧
    proofTransactionValidated cPT4b cChain cVerifyTrue
      = Ret.error (errProof (ProofTransactionError.InvalidInputType 1)) ∧
    proofTransactionValidated cPT4c cChain cVerifyTrue
      = Ret.error (errProof (ProofTransactionError.InputIsSpent 1)) ∧
    proofTransactionValidated cPT4d cChain cVerifyFalse
      = Ret.error (errProof (ProofTransactionError.InvalidInputSignature 0)) := by
  have hprev1 : ∀ (tx : Transaction), tx.input[0]? = some cSenderIn →
      ∀ j inpj, j < 1 → tx.input[j]? = some inpj →
        checkInput cChain cVerifyTrue tx inpj = InputOutcome.okay := by
    intro tx h0 j inpj hj hg
    have hj0 : j = 0 := by omega
    subst hj0
    rw [h0] at hg
    injection hg with hg
    subst hg
    rfl
  refine ⟨proof_validation_error_cases.1 cPT1 cChain cVerifyTrue (by decide),
    proof_validation_error_cases.2.1 cPT2 cChain cVerifyTrue (by decide) (by decide),
    proof_validation_error_cases.2.2.1 cPT3 cChain cVerifyTrue (by decide) (by decide)
      (by decide),
    (proof_validation_error_cases.2.2.2 cPT4a cChain cVerifyTrue 1 cBadIn (by decide)
      (by decide) (by decide) (by decide) (hprev1 cPT4a (by decide))).1 (by decide),
    (proof_validation_error_cases.2.2.2 cPT4b cChain cVerifyTrue 1 cBadTypeIn (by decide)
      (by decide) (by decide) (by decide) (hprev1 cPT4b (by decide))).2.1 (by decide),
    (proof_validation_error_cases.2.2.2 cPT4c cChain cVerifyTrue 1 cSpentIn (by decide)
      (by decide) (by decide) (by decide) (hprev1 cPT4c (by decide))).2.2.1 (by decide),
    (proof_validation_error_cases.2.2.2 cPT4d cChain cVerifyFalse 0 cSenderIn (by decide)
      (by decide) (by decide) (by decide) (by intro j inpj hj hg; omega)).2.2.2 (by decide)⟩

/-! ### C5: cardinality of the Utxos response of the receiver -/

def cOurUtxo : OutPoint := { txid := 2, vout := 0 }

/-- An input-free proof transaction with the required shape; it validates
against any chain and oracle. -/
def cPT5 : Transaction :=
  { version := 2, lock_time := 0, input := [], output := [cProofOut] }

/-- Counterexample for C5: over a chain whose decoy oracle returns no decoys,
the accepted Proof request in state ClientVersion emits a Utxos response with
a single outpoint, not 100. -/
theorem server_utxos_not_always_100 :
    serverProofTransition cOurUtxo cChain cVerifyTrue 0 0 cPT5 = Ret.ok [cOurUtxo] ∧
    ([cOurUtxo] : List OutPoint).length ≠ 100 :=
  ⟨by decide, by decide⟩

theorem nodup_insertIdx {α : Type _} (x : α) :
    ∀ (n : Nat) (l : List α), n ≤ l.length → x ∉ l → l.Nodup →
      (l.insertIdx n x).Nodup := by
  intro n
  induction n with
  | zero =>
    intro l _ hx hl
    rw [List.insertIdx_zero, List.nodup_cons]
    exact ⟨hx, hl⟩
  | succ n ih =>
    intro l hn hx hl
    cases l with
    | nil => simp at hn
    | cons y ys =>
      rw [List.insertIdx_succ_cons]
      rw [List.nodup_cons] at hl ⊢
      simp only [List.mem_cons, not_or] at hx
      refine ⟨?_, ih ys (by simpa using hn) hx.2 hl.2⟩
      intro hmem
      rw [List.mem_insertIdx (by simpa using hn)] at hmem
      rcases hmem with h | h
      · exact hx.1 h.symm
      · exact hl.1 h

/-- C5 amended: the emitted Utxos list is the decoy list with our_utxo
inserted at the drawn position; when the decoy oracle returns exactly 99
distinct outpoints not containing our_utxo and the drawn position is below
100, the response has exactly 100 distinct outpoints with our_utxo at
exactly that position. (Uniformity of the position is a property of the
external rng primitive gen_range(0, 100), outside the embedding.) -/
theorem server_utxos_amended
    (our_utxo : OutPoint) (chain : Blockchain) (verify : SigVerify) (seed pos : Nat)
    (transaction : Transaction) (decoys : List OutPoint) (l : List OutPoint)
    (hdec : chain.get_random_utxo our_utxo seed = some decoys)
    (hlen : decoys.length = 99) (hnd : decoys.Nodup) (hmem : our_utxo ∉ decoys)
    (hpos : pos < 100)
    (hok : serverProofTransition our_utxo chain verify seed pos transaction = Ret.ok l) :
    l = decoys.insertIdx pos our_utxo ∧ l.length = 100 ∧ l.Nodup ∧
      l[pos]? = some our_utxo ∧ (∀ q, l[q]? = some our_utxo → q = pos) := by
  have hple : pos ≤ decoys.length := by omega
  unfold serverProofTransition at hok
  split at hok
  · cases hok
  · cases hok
  · rw [hdec] at hok
    simp only at hok
    rw [if_pos hple] at hok
    injection hok with hok
    subst hok
    refine ⟨rfl, ?_, ?_, ?_, ?_⟩
    · rw [List.length_insertIdx pos decoys hple]
      omega
    · exact nodup_insertIdx our_utxo pos decoys hple hmem hnd
    · exact getElem?_insertIdx_self decoys our_utxo pos hple
    · intro q hq
      have hnd2 : (decoys.insertIdx pos our_utxo).Nodup :=
        nodup_insertIdx our_utxo pos decoys hple hmem hnd
      have hqlt : q < (decoys.insertIdx pos our_utxo).length := by
        by_contra hge
        rw [List.getElem?_eq_none (by omega)] at hq
        cases hq
      exact List.getElem?_inj hqlt hnd2
        (by rw [hq, getElem?_insertIdx_self decoys our_utxo pos hple])

def cDecoys : List OutPoint := (List.range 99).map fun k => { txid := k + 10, vout := 0 }

def cChain5 : Blockchain := { cChain with get_random_utxo := fun _ _ => some cDecoys }

/-- Witness for C5 amended: with 99 distinct decoys and position 42, the
response is the 100-element list with our_utxo at position 42 only. -/
theorem server_utxos_amended_witness :
    (cDecoys.insertIdx 42 cOurUtxo).length = 100 ∧
    (cDecoys.insertIdx 42 cOurUtxo).Nodup ∧
    (cDecoys.insertIdx 42 cOurUtxo)[42]? = some cOurUtxo ∧
    (∀ q, (cDecoys.insertIdx 42 cOurUtxo)[q]? = some cOurUtxo → q = 42) :=
  (server_utxos_amended cOurUtxo cChain5 cVerifyTrue 0 42 cPT5 cDecoys
    (cDecoys.insertIdx 42 cOurUtxo) (by decide) (by decide) (by decide) (by decide)
    (by decide) (by decide)).2

/-! ### C7: direction narrowing in the RPC mainloop -/

def cWrongForClient : Message := Message.request (Request.Version "1.0")

def cWrongForServer : Message := Message.response (Response.Version "1.0")

/-- C7 evidence: on a well-formed envelope of the wrong direction the TryFrom
narrowing produces Protocol(UnexpectedMessage), but the mainloop unwraps that
conversion and panics instead of yielding it as the session error, on both
the client side (a Request where a Response is expected) and the server side
(a Response where a Request is expected). -/
theorem mainloop_panics_on_direction_mismatch :
    responseOfMessage cWrongForClient
      = Except.error (Error.Protocol ProtocolError.UnexpectedMessage) ∧
    requestOfMessage cWrongForServer
      = Except.error (Error.Protocol ProtocolError.UnexpectedMessage) ∧
    @mainloopIter Response Nat responseOfMessage (fun _ => Except.ok none) none
      cWrongForClient = LoopStep.panic ∧
    @mainloopIter Request Nat requestOfMessage (fun _ => Except.ok none) none
      cWrongForServer = LoopStep.panic :=
  ⟨rfl, rfl, rfl, rfl⟩

/-! ### C8: error propagation policy of the mainloop -/

/-- Counterexample for C8: a handler error that is not a Protocol error (here
Timeout) does not terminate the session; the iteration discards it and
continues the loop. -/
theorem mainloop_swallows_nonprotocol_errors :
    @mainloopIter Request Nat requestOfMessage (fun _ => Except.error Error.Timeout)
      none (Message.request (Request.Version "1.0")) = LoopStep.cont [] ∧
    LoopStep.cont [] ≠ @LoopStep.failure Nat Error.Timeout [] :=
  ⟨rfl, by decide⟩

/-- C8 amended: when the handler returns a Protocol error, exactly one error
frame is written to the peer and the mainloop returns that error as the
session result; every other handler error is discarded and the loop goes on
to the done check. -/
theorem mainloop_protocol_error_propagation {ι ρ : Type}
    (narrow : Message → Except Error ι) (handle : ι → Except Error (Option Message))
    (doneF : Option ρ) (m : Message) (parsed : ι)
    (hm : ∀ e, m ≠ Message.error e)
    (hn : narrow m = Except.ok parsed) :
    (∀ pe, handle parsed = Except.error (Error.Protocol pe) →
      mainloopIter narrow handle doneF m
        = LoopStep.failure (Error.Protocol pe) [Message.error pe]) ∧
    (∀ e, handle parsed = Except.error e → (∀ pe, e ≠ Error.Protocol pe) →
      mainloopIter narrow handle doneF m
        = match doneF with
          | some r => LoopStep.success r []
          | none => LoopStep.cont []) := by
  cases m with
  | error e => exact absurd rfl (hm e)
  | request r =>
    constructor
    · intro pe hh
      simp only [mainloopIter, hn, hh]
    · intro e hh hne
      simp only [mainloopIter, hn, hh]
      cases e
      case Protocol pe => exact absurd rfl (hne pe)
      all_goals rfl
  | response r =>
    constructor
    · intro pe hh
      simp only [mainloopIter, hn, hh]
    · intro e hh hne
      simp only [mainloopIter, hn, hh]
      cases e
      case Protocol pe => exact absurd rfl (hne pe)
      all_goals rfl

/-- Witness for C8 amended: a concrete Protocol error is written as one frame
and returned; a concrete Timeout is discarded and the loop continues. -/
theorem mainloop_protocol_error_propagation_witness :
    @mainloopIter Request Nat requestOfMessage
      (fun _ => Except.error (Error.Protocol ProtocolError.InvalidUtxo)) none
      (Message.request (Request.Version "1.0"))
      = LoopStep.failure (Error.Protocol ProtocolError.InvalidUtxo)
          [Message.error ProtocolError.InvalidUtxo] ∧
    @mainloopIter Request Nat requestOfMessage
      (fun _ => Except.error Error.Timeout) none (Message.request (Request.Version "1.0"))
      = LoopStep.cont [] :=
  ⟨(mainloop_protocol_error_propagation requestOfMessage
      (fun _ => Except.error (Error.Protocol ProtocolError.InvalidUtxo)) none
      (Message.request (Request.Version "1.0")) (Request.Version "1.0")
      (fun _ h => Message.noConfusion h) rfl).1 ProtocolError.InvalidUtxo rfl,
   (mainloop_protocol_error_propagation requestOfMessage
      (fun _ => Except.error Error.Timeout) none
      (Message.request (Request.Version "1.0")) (Request.Version "1.0")
      (fun _ h => Message.noConfusion h) rfl).2 Error.Timeout rfl
      (fun _ h => Error.noConfusion h)⟩

/-! ### C10: witness adoption with a short bundle -/

/-- Number of indices in the window from start (inclusive) of width k that
differ from rii: the bundle entries consumed before reaching offset k. -/
def nonRiiRank (rii : Nat) : Nat → Nat → Nat
  | _, 0 => 0
  | start, k + 1 => (if start = rii then 0 else 1) + nonRiiRank rii (start + 1) k

theorem adoptAux_ok (deser : List Nat → Option (List (List Nat))) (rii : Nat) :
    ∀ (ins : List TxIn) (start : Nat) (ws : List (List Nat)),
      (∀ w ∈ ws, (deser w).isSome = true) →
      ∃ res, adoptAux deser rii ins start ws = Except.ok res ∧
        res.length = ins.length ∧
        ∀ k inp, ins[k]? = some inp →
          res[k]? = some
            (if start + k = rii ∨ ws.length ≤ nonRiiRank rii start k then inp
             else { inp with
                    witness := (deser ((ws[nonRiiRank rii start k]?).getD [])).getD [] }) := by
  intro ins
  induction ins with
  | nil =>
    intro start ws hws
    refine ⟨[], rfl, rfl, ?_⟩
    intro k inp h
    simp at h
  | cons inp0 rest ih =>
    intro start ws hws
    by_cases hsr : start = rii
    · obtain ⟨res, hres, hlen, hpt⟩ := ih (start + 1) ws hws
      refine ⟨inp0 :: res, ?_, by simp [hlen], ?_⟩
      · simp only [adoptAux, if_pos hsr, hres, Except.map]
      · intro k inp hk
        cases k with
        | zero =>
          simp only [List.getElem?_cons_zero, Option.some.injEq] at hk
          subst hk
          simp [nonRiiRank, hsr]
        | succ k =>
          simp only [List.getElem?_cons_succ] at hk ⊢
          rw [hpt k inp hk]
          have hr : nonRiiRank rii start (k + 1) = nonRiiRank rii (start + 1) k := by
            simp [nonRiiRank, hsr]
          rw [hr]
          have hadd : start + (k + 1) = start + 1 + k := by omega
          rw [hadd]
    · cases ws with
      | nil =>
        obtain ⟨res, hres, hlen, hpt⟩ := ih (start + 1) [] hws
        refine ⟨inp0 :: res, ?_, by simp [hlen], ?_⟩
        · simp only [adoptAux, if_neg hsr, hres, Except.map]
        · intro k inp hk
          cases k with
          | zero =>
            simp only [List.getElem?_cons_zero, Option.some.injEq] at hk
            subst hk
            simp
          | succ k =>
            simp only [List.getElem?_cons_succ] at hk ⊢
            rw [hpt k inp hk]
            simp
      | cons w wrest =>
        have hw : (deser w).isSome = true := hws w (by simp)
        obtain ⟨stk, hstk⟩ := Option.isSome_iff_exists.mp hw
        have hwrest : ∀ w2 ∈ wrest, (deser w2).isSome = true := by
          intro w2 h2
          exact hws w2 (by simp [h2])
        obtain ⟨res, hres, hlen, hpt⟩ := ih (start + 1) wrest hwrest
        refine ⟨{ inp0 with witness := stk } :: res, ?_, by simp [hlen], ?_⟩
        · simp only [adoptAux, if_neg hsr, hstk, hres, Except.map]
        · intro k inp hk
          cases k with
          | zero =>
            simp only [List.getElem?_cons_zero, Option.some.injEq] at hk
            subst hk
            have hcond : ¬ (start + 0 = rii ∨ (w :: wrest).length ≤ nonRiiRank rii start 0) := by
              simp [nonRiiRank, hsr]
            rw [if_neg hcond]
            simp [nonRiiRank, hstk]
          | succ k =>
            simp only [List.getElem?_cons_succ] at hk ⊢
            rw [hpt k inp hk]
            have hr : nonRiiRank rii start (k + 1) = nonRiiRank rii (start + 1) k + 1 := by
              simp [nonRiiRank, hsr]
              omega
            have hadd : start + (k + 1) = start + 1 + k := by omega
            rw [hr, hadd]
            simp only [List.length_cons, List.getElem?_cons_succ]
            congr 1
            have : ((w :: wrest).length ≤ nonRiiRank rii (start + 1) k + 1)
                ↔ (wrest.length ≤ nonRiiRank rii (start + 1) k) := by
              simp
            by_cases hc : start + 1 + k = rii ∨ wrest.length ≤ nonRiiRank rii (start + 1) k
            · rw [if_pos hc, if_pos]
              rcases hc with h | h
              · exact Or.inl h
              · exact Or.inr (by omega)
            · rw [if_neg hc, if_neg]
              push_neg at hc
              push_neg
              exact ⟨hc.1, by omega⟩

theorem adoptAux_error (deser : List Nat → Option (List (List Nat))) (rii : Nat) :
    ∀ (ins : List TxIn) (start : Nat) (ws : List (List Nat)) (e : FinalTransactionError),
      adoptAux deser rii ins start ws = Except.error e →
      e = FinalTransactionError.InvalidWitness ∧ ∃ w ∈ ws, deser w = none := by
  intro ins
  induction ins with
  | nil =>
    intro start ws e h
    simp [adoptAux] at h
  | cons inp0 rest ih =>
    intro start ws e h
    by_cases hsr : start = rii
    · simp only [adoptAux, if_pos hsr] at h
      cases hrec : adoptAux deser rii rest (start + 1) ws with
      | ok res => rw [hrec] at h; simp [Except.map] at h
      | error e2 =>
        rw [hrec] at h
        simp only [Except.map] at h
        injection h with h
        subst h
        exact ih (start + 1) ws _ hrec
    · cases ws with
      | nil =>
        simp only [adoptAux, if_neg hsr] at h
        cases hrec : adoptAux deser rii rest (start + 1) [] with
        | ok res => rw [hrec] at h; simp [Except.map] at h
        | error e2 =>
          rw [hrec] at h
          simp only [Except.map] at h
          injection h with h
          subst h
          exact ih (start + 1) [] _ hrec
      | cons w wrest =>
        simp only [adoptAux, if_neg hsr] at h
        cases hw : deser w with
        | none =>
          rw [hw] at h
          simp only at h
          injection h with h
          exact ⟨h.symm, w, by simp, hw⟩
        | some stk =>
          rw [hw] at h
          simp only at h
          cases hrec : adoptAux deser rii rest (start + 1) wrest with
          | ok res => rw [hrec] at h; simp [Except.map] at h
          | error e2 =>
            rw [hrec] at h
            simp only [Except.map] at h
            injection h with h
            subst h
            obtain ⟨he, w2, hmem, hw2⟩ := ih (start + 1) wrest _ hrec
            exact ⟨he, w2, by simp [hmem], hw2⟩

/-- C10: witness adoption with a short bundle succeeds silently: the
zip-with-filter consumes one bundle entry per non-receiver input until the
bundle runs out, replacing exactly the first bundle-length such inputs (in
index order) and leaving every other input untouched; the only possible error
of the conversion is InvalidWitness, and it occurs only when a provided
bundle entry fails to parse. -/
theorem adopt_short_bundle :
    (∀ (ft : FinalTransaction) (ws : List (List Nat))
       (deser : List Nat → Option (List (List Nat))),
      (∀ w ∈ ws, (deser w).isSome = true) →
      ∃ ft2, adoptWitnesses ft ws deser = Except.ok ft2 ∧
        ft2.receiver_input_index = ft.receiver_input_index ∧
        ft2.transaction.version = ft.transaction.version ∧
        ft2.transaction.lock_time = ft.transaction.lock_time ∧
        ft2.transaction.output = ft.transaction.output ∧
        ft2.transaction.input.length = ft.transaction.input.length ∧
        ∀ k inp, ft.transaction.input[k]? = some inp →
          ft2.transaction.input[k]? = some
            (if k = ft.receiver_input_index ∨
                ws.length ≤ nonRiiRank ft.receiver_input_index 0 k
             then inp
             else { inp with witness :=
               (deser ((ws[nonRiiRank ft.receiver_input_index 0 k]?).getD [])).getD [] })) ∧
    (∀ (ft : FinalTransaction) (ws : List (List Nat))
       (deser : List Nat → Option (List (List Nat))) (e : FinalTransactionError),
      adoptWitnesses ft ws deser = Except.error e →
      e = FinalTransactionError.InvalidWitness ∧ ∃ w ∈ ws, deser w = none) := by
  constructor
  · intro ft ws deser hws
    obtain ⟨res, hres, hlen, hpt⟩ := adoptAux_ok deser ft.receiver_input_index
      ft.transaction.input 0 ws hws
    refine ⟨{ transaction := { ft.transaction with input := res },
              receiver_input_index := ft.receiver_input_index },
      ?_, rfl, rfl, rfl, rfl, hlen, ?_⟩
    · simp only [adoptWitnesses, hres, Except.map]
    · intro k inp hk
      have hp := hpt k inp hk
      simpa using hp
  · intro ft ws deser e h
    simp only [adoptWitnesses] at h
    cases hrec : adoptAux deser ft.receiver_input_index ft.transaction.input 0 ws with
    | ok res => rw [hrec] at h; simp [Except.map] at h
    | error e2 =>
      rw [hrec] at h
      simp only [Except.map] at h
      injection h with h
      subst h
      exact adoptAux_error deser ft.receiver_input_index ft.transaction.input 0 ws _ hrec

def cIn2 : TxIn :=
  { previous_output := { txid := 1, vout := 0 }, script_sig := [],
    sequence := 4294967295, witness := [[5]] }

def cFt10 : FinalTransaction :=
  { transaction :=
      { version := 2, lock_time := 0, input := [cSenderIn, cRecvIn, cIn2], output := [] },
    receiver_input_index := 1 }

/-- Witness for C10: a 1-entry bundle on a 3-input transaction with
receiver_input_index 1 (two non-receiver inputs), and a 1-entry bundle whose
entry fails to parse. -/
theorem adopt_short_bundle_witness :
    (∃ ft2, adoptWitnesses cFt10 [serW [[7]]] deserW = Except.ok ft2 ∧
      ft2.receiver_input_index = cFt10.receiver_input_index ∧
      ft2.transaction.version = cFt10.transaction.version ∧
      ft2.transaction.lock_time = cFt10.transaction.lock_time ∧
      ft2.transaction.output = cFt10.transaction.output ∧
      ft2.transaction.input.length = cFt10.transaction.input.length ∧
      ∀ k inp, cFt10.transaction.input[k]? = some inp →
        ft2.transaction.input[k]? = some
          (if k = cFt10.receiver_input_index ∨
              ([serW [[7]]] : List (List Nat)).length ≤ nonRiiRank cFt10.receiver_input_index 0 k
           then inp
           else { inp with witness :=
             (deserW ((([serW [[7]]] : List (List Nat))[nonRiiRank cFt10.receiver_input_index 0 k]?).getD [])).getD [] })) ∧
    (FinalTransactionError.InvalidWitness = FinalTransactionError.InvalidWitness ∧
      ∃ w ∈ [([] : List Nat)], deserW w = none) :=
  ⟨adopt_short_bundle.1 cFt10 [serW [[7]]] deserW (by decide),
   adopt_short_bundle.2 cFt10 [[]] deserW FinalTransactionError.InvalidWitness rfl⟩

/-! ### C4: witness adoption versus local sender signing -/

/-- A concrete signing oracle: it overwrites the witness of every designated
input with a fixed 2-item stack. -/
def cSignWits : List (List Nat) := [[6, 6], [8, 8]]

def cSignerGo (idxs : List Nat) : List TxIn → Nat → List TxIn
  | [], _ => []
  | inp :: rest, i =>
    (if i ∈ idxs then { inp with witness := cSignWits } else inp) :: cSignerGo idxs rest (i + 1)

def cSigner : SignerFun :=
  fun tx idxs => { tx with input := cSignerGo idxs tx.input 0 }

theorem cSignerGo_length (idxs : List Nat) :
    ∀ (l : List TxIn) (base : Nat), (cSignerGo idxs l base).length = l.length := by
  intro l
  induction l with
  | nil => intro base; rfl
  | cons inp rest ih =>
    intro base
    simp [cSignerGo, ih]

theorem cSignerGo_get (idxs : List Nat) :
    ∀ (l : List TxIn) (base k : Nat),
      (cSignerGo idxs l base)[k]?
        = (l[k]?).map (fun inp =>
            if base + k ∈ idxs then { inp with witness := cSignWits } else inp) := by
  intro l
  induction l with
  | nil => intro base k; simp [cSignerGo]
  | cons inp rest ih =>
    intro base k
    cases k with
    | zero => simp [cSignerGo]
    | succ k =>
      simp only [cSignerGo, List.getElem?_cons_succ]
      rw [ih (base + 1) k]
      have heq : base + 1 + k = base + (k + 1) := by omega
      rw [heq]

/-- The concrete signer satisfies the Signer contract. -/
theorem cSigner_contract : SignerContract cSigner := by
  intro tx idxs
  refine ⟨rfl, rfl, rfl, cSignerGo_length idxs tx.input 0, ?_, ?_⟩
  · intro i hi hmem
    show (cSignerGo idxs tx.input 0)[i]? = tx.input[i]?
    rw [cSignerGo_get idxs tx.input 0 i]
    cases h : tx.input[i]? with
    | none => rfl
    | some inp => simp [hmem]
  · intro i hi hmem
    refine ⟨cSignWits, rfl, ?_⟩
    show (cSignerGo idxs tx.input 0)[i]? = _
    rw [cSignerGo_get idxs tx.input 0 i]
    cases h : tx.input[i]? with
    | none => rfl
    | some inp => simp [hmem]

/-- Adopting the bundle extracted from a signed input list reproduces the
signed list, whenever signed and original inputs agree outside witnesses
(and fully at the receiver index) and the codec round-trips. -/
theorem adopt_extract (deser : List Nat → Option (List (List Nat)))
    (ser : List (List Nat) → List Nat) (hrt : ∀ w, deser (ser w) = some w) (rii : Nat) :
    ∀ (orig signed : List TxIn) (start : Nat),
      orig.length = signed.length →
      (∀ k inp sinp, orig[k]? = some inp → signed[k]? = some sinp →
        (start + k = rii → sinp = inp) ∧
        (start + k ≠ rii → sinp = { inp with witness := sinp.witness })) →
      adoptAux deser rii orig start (extractWitnesses ser rii signed start)
        = Except.ok signed := by
  intro orig
  induction orig with
  | nil =>
    intro signed start hlen hpt
    cases signed with
    | nil => rfl
    | cons s ss => simp at hlen
  | cons o os ih =>
    intro signed start hlen hpt
    cases signed with
    | nil => simp at hlen
    | cons s ss =>
      have hlen2 : os.length = ss.length := by simpa using hlen
      have hpt0 := hpt 0 o s (by simp) (by simp)
      have hpt2 : ∀ k inp sinp, os[k]? = some inp → ss[k]? = some sinp →
          (start + 1 + k = rii → sinp = inp) ∧
          (start + 1 + k ≠ rii → sinp = { inp with witness := sinp.witness }) := by
        intro k inp sinp h1 h2
        have hstep := hpt (k + 1) inp sinp (by simpa using h1) (by simpa using h2)
        have heq : start + (k + 1) = start + 1 + k := by omega
        rw [heq] at hstep
        exact hstep
      by_cases hsr : start = rii
      · have hs : s = o := hpt0.1 (by omega)
        simp only [extractWitnesses, if_pos hsr, adoptAux]
        rw [ih ss (start + 1) hlen2 hpt2]
        simp [Except.map, hs]
      · have hs : s = { o with witness := s.witness } := hpt0.2 (by omega)
        simp only [extractWitnesses, if_neg hsr, adoptAux, hrt s.witness]
        rw [ih ss (start + 1) hlen2 hpt2]
        simp only [Except.map, Except.ok.injEq, List.cons.injEq]
        exact ⟨hs.symm, trivial⟩

/-- C4 amended: for every unsigned final transaction produced by the
conversion whose input script_sigs are all empty (as holds for a proof built
through the Created path, which clears them), for every signer satisfying the
Signer contract and every round-tripping witness codec, extracting the
witnesses of the sender-signed transaction and adopting them onto the same
unsigned transaction reproduces the sender-signed transaction exactly. -/
theorem sender_sign_then_adopt_identical
    (meta : FinalTransactionMeta) (chain : Blockchain) (ft : FinalTransaction)
    (signer : SignerFun) (ser : List (List Nat) → List Nat)
    (deser : List Nat → Option (List (List Nat)))
    (hok : finalTransactionUnsigned meta chain = Ret.ok ft)
    (hcon : SignerContract signer)
    (hrt : ∀ w, deser (ser w) = some w)
    (hss : ∀ inp ∈ ft.transaction.input, inp.script_sig = []) :
    adoptWitnesses ft
      (extractWitnesses ser ft.receiver_input_index
        (senderSign ft signer).transaction.input 0) deser
      = Except.ok (senderSign ft signer) := by
  have htxext : ∀ (a b : Transaction), a.version = b.version → a.lock_time = b.lock_time →
      a.input = b.input → a.output = b.output → a = b := by
    intro a b h1 h2 h3 h4
    cases a
    cases b
    simp_all
  obtain ⟨siv, v1, change, rtx, rpout, rv, hsiv, hv1, hchange, hrtx, hrpout, hrv,
    hroi, hseq, hss0, hw0, hrii, hft⟩ := finalTransactionUnsigned_ok_spec meta chain ft hok
  have hriiget : ft.transaction.input[ft.receiver_input_index]? = some meta.receiver_txin := by
    rw [hft]
    exact getElem?_insertIdx_self _ _ _ hrii
  have hriie : ft.receiver_input_index = meta.receiver_input_index := by rw [hft]
  set rii := ft.receiver_input_index with hriidef
  set cf : TxIn → TxIn := fun i => { i with script_sig := [], witness := [] } with hcf
  set cleared : Transaction :=
    { ft.transaction with input := ft.transaction.input.map cf } with hcleared
  set idxs := (List.range cleared.input.length).filter (fun i => i ≠ rii) with hidxs
  obtain ⟨hv, hl, ho, hlen, hunm, hmem⟩ := hcon cleared idxs
  have hclen : cleared.input.length = ft.transaction.input.length := by
    simp [hcleared]
  have hmemidx : ∀ k, k ∈ idxs ↔ (k < ft.transaction.input.length ∧ k ≠ rii) := by
    intro k
    simp [hidxs, List.mem_filter, List.mem_range, hclen]
  have hsign : senderSign ft signer
      = { transaction := signer cleared idxs, receiver_input_index := rii } := rfl
  rw [hsign]
  simp only [adoptWitnesses]
  have hlists : adoptAux deser rii ft.transaction.input 0
      (extractWitnesses ser rii (signer cleared idxs).input 0)
      = Except.ok (signer cleared idxs).input := by
    apply adopt_extract deser ser hrt rii ft.transaction.input (signer cleared idxs).input 0
    · rw [hlen, hclen]
    · intro k inp sinp h1 h2
      have hk : k < ft.transaction.input.length := by
        rw [List.getElem?_eq_some_iff] at h1
        exact h1.1
      have hclk : cleared.input[k]? = some (cf inp) := by
        simp [hcleared, List.getElem?_map, h1]
      constructor
      · intro hkr
        rw [Nat.zero_add] at hkr
        have hnm : k ∉ idxs := by
          rw [hmemidx k]
          intro hc
          exact hc.2 hkr
        have hse : (signer cleared idxs).input[k]? = cleared.input[k]? :=
          hunm k (by rw [hclen]; exact hk) hnm
        rw [h2, hclk] at hse
        injection hse with hse
        have hinp : inp = meta.receiver_txin := by
          rw [hkr] at h1
          rw [h1] at hriiget
          injection hriiget
        have hcfid : cf inp = inp := by
          rw [hinp]
          show ({ meta.receiver_txin with script_sig := [], witness := [] } : TxIn)
            = meta.receiver_txin
          cases hmr : meta.receiver_txin
          simp_all
        rw [hcfid] at hse
        exact hse
      · intro hkr
        rw [Nat.zero_add] at hkr
        have hin : k ∈ idxs := by
          rw [hmemidx k]
          exact ⟨hk, hkr⟩
        obtain ⟨w2, hw2len, hget⟩ := hmem k (by rw [hclen]; exact hk) hin
        rw [h2, hclk] at hget
        simp only [Option.map_some'] at hget
        injection hget with hget
        have hinpss : inp.script_sig = [] := hss inp (List.getElem?_mem h1)
        rw [hget]
        simp [hcf, hinpss]
  rw [hlists]
  simp only [Except.map, Except.ok.injEq]
  have : ({ ft.transaction with input := (signer cleared idxs).input } : Transaction)
      = signer cleared idxs := by
    apply htxext
    · rw [hv]
    · rw [hl]
    · rfl
    · rw [ho]
  rw [this]

/-- A sender input carrying a nonempty script_sig; proof validation never
inspects script_sig (BIP-143 does not commit to it), so such an input can
reach final assembly on the receiver side. -/
def cSigIn : TxIn :=
  { previous_output := { txid := 1, vout := 0 }, script_sig := [170],
    sequence := 4294967295, witness := [[48, 1], [2, 2]] }

def cMeta4 : FinalTransactionMeta :=
  { cMeta1 with tx := { version := 2, lock_time := 0, input := [cSigIn], output := [] } }

def cFt4 : FinalTransaction :=
  { transaction :=
      { version := 2, lock_time := 0,
        input := [cSigIn, cRecvIn],
        output := [{ value := 96995000, script_pubkey := [9, 9] },
                   { value := 203000000, script_pubkey := [7] }] },
    receiver_input_index := 1 }

def cFt4adopted : FinalTransaction :=
  { transaction :=
      { version := 2, lock_time := 0,
        input := [{ cSigIn with witness := cSignWits }, cRecvIn],
        output := [{ value := 96995000, script_pubkey := [9, 9] },
                   { value := 203000000, script_pubkey := [7] }] },
    receiver_input_index := 1 }

/-- Counterexample for C4: on an unsigned final transaction (reachable from
the conversion) whose sender input carries a nonempty script_sig, sender
signing clears the script_sig but adoption does not, so the adopted
transaction differs from the locally signed one even though the signer obeys
the contract and the codec round-trips. -/
theorem adopt_not_byte_identical :
    finalTransactionUnsigned cMeta4 cChain = Ret.ok cFt4 ∧
    SignerContract cSigner ∧
    (∀ w, deserW (serW w) = some w) ∧
    (∃ ft2, adoptWitnesses cFt4
        (extractWitnesses serW cFt4.receiver_input_index
          (senderSign cFt4 cSigner).transaction.input 0) deserW
        = Except.ok ft2 ∧ ft2 ≠ senderSign cFt4 cSigner) :=
  ⟨by decide, cSigner_contract, deserW_serW, cFt4adopted, rfl, by decide⟩

/-- Witness for C4 amended: on the all-empty-script_sig unsigned transaction
cFt1, adoption of the extracted bundle reproduces the sender-signed
transaction. -/
theorem sender_sign_then_adopt_identical_witness :
    adoptWitnesses cFt1
      (extractWitnesses serW cFt1.receiver_input_index
        (senderSign cFt1 cSigner).transaction.input 0) deserW
      = Except.ok (senderSign cFt1 cSigner) :=
  sender_sign_then_adopt_identical cMeta1 cChain cFt1 cSigner serW deserW
    (by decide) cSigner_contract deserW_serW (by decide)

end P2EP
